import Mathlib

/-!
Shallow embedding of the protocol-sniffing core (package `sniff`):
`Skip`, `PeekStream` and `PeekPacket`, together with the fan-out/fan-in
race over the registered sniffers that both peek functions share.

Modelling choices, all taken from the source:
* A sniffer is a pure capability from the byte view to a result: a nil
  error in the source means "matched" (the sniffer records the protocol
  on the metadata), a non-nil error means "inconclusive" with a reason.
* The goroutine fan-out writes each sniffer's result into a channel
  buffered to the number of sniffers; the consuming loop reads results
  in ARRIVAL order, which the scheduler decides.  The arrival order is
  therefore an explicit parameter: a list of indices into the sniffer
  registry, a permutation of `List.range n` for a real schedule.
* Connection reads and `SetReadDeadline` calls are modelled by oracles
  indexed by the round number, and the operations performed on the
  connection are recorded in a trace.
* The unbounded `for i := 0; ; i++` loop gets explicit fuel; running out
  of fuel yields `none` (the real loop would still be running).
-/

namespace Sniff

/-- Bytes are modelled as natural numbers below 256; the detectors only
ever compare them, so `Nat` is adequate. -/
abbrev ByteView := List Nat

/-- Result of one sniffer invocation: in Go, a nil error (the sniffer
matched and set the protocol) or a non-nil error carrying the reason. -/
inductive SniffResult where
  | matched (protocol : String)
  | inconclusive (reason : String)
deriving DecidableEq, Repr

/-- A stream or packet sniffer: a pure function from the byte view to a
result (`StreamSniffer` / `PacketSniffer` in the source; both receive
the full accumulated view respectively the packet). -/
abbrev Sniffer := ByteView → SniffResult

/-- `Skip` from the source: skip server-first protocols by destination
port (SMTP 25/465/587, IMAP 143/993, POP3 110/995). -/
def Skip (port : Nat) : Bool :=
  match port with
  | 25 | 465 | 587 => true
  | 143 | 993 => true
  | 110 | 995 => true
  | _ => false

/-- Go error values as far as this package builds them: a plain error
message, `E.Cause(err, msg)`, and the multi-error produced by
`E.Errors`. -/
inductive GoError where
  | str (s : String)
  | cause (msg : String) (e : GoError)
  | multi (es : List String)
deriving DecidableEq, Repr

/-- Modelled from the spec: `E.Errors` of the external exceptions
library, which aggregates the non-nil errors handed to it; an empty
aggregate yields nil (no error), a single reason is returned alone, and
two or more become one combined error preserving each message. -/
def E_Errors (reasons : List String) : Option GoError :=
  match reasons with
  | [] => none
  | [r] => some (.str r)
  | rs => some (.multi rs)

/-- All sniffer results for one round, in registration order (index `i`
holds sniffer `i`'s result on the shared view). -/
def runAll (sniffers : List Sniffer) (view : ByteView) : List SniffResult :=
  sniffers.map (fun s => s view)

/-- Reorder the results into channel-arrival order: `arrival` lists the
registry indices in the order their results reach the channel. -/
def arrivalOrder (results : List SniffResult) (arrival : List Nat) : List SniffResult :=
  arrival.filterMap (fun i => results.get? i)

/-- Outcome of one race round: either the first match consumed from the
channel (with how many results had been consumed when the call
returned), or all results were inconclusive and every reason was
appended to the accumulator. -/
inductive RaceOutcome where
  | success (protocol : String) (consumed : Nat)
  | failure (reasons : List String) (consumed : Nat)
deriving DecidableEq, Repr

/-- The `for err := range errorsChan` loop shared by `PeekStream` and
`PeekPacket`: results are consumed in arrival order; the first nil
(matched) result returns immediately, otherwise every reason is
appended to the accumulated error list. -/
def collectResults (rs : List SniffResult) (acc : List String) (consumed : Nat) : RaceOutcome :=
  match rs with
  | [] => .failure acc consumed
  | .matched p :: _ => .success p (consumed + 1)
  | .inconclusive r :: rest => collectResults rest (acc ++ [r]) (consumed + 1)

/-- One fan-out/fan-in race round over a view: launch every sniffer on
the view, then consume the results in arrival order. -/
def race (sniffers : List Sniffer) (view : ByteView) (arrival : List Nat)
    (acc : List String) : RaceOutcome :=
  collectResults (arrivalOrder (runAll sniffers view) arrival) acc 0

/-- `PeekPacket`'s observable outcome: the returned error (none = nil)
and how many channel results were consumed before the call returned. -/
structure PacketOutput where
  result : Option GoError
  consumed : Nat
deriving DecidableEq, Repr

/-- `PeekPacket` from the source: a single race over the packet bytes;
nil on the first matched result, otherwise `E.Errors` of all reasons. -/
def PeekPacket (sniffers : List Sniffer) (packet : ByteView)
    (arrival : List Nat) : PacketOutput :=
  match race sniffers packet arrival [] with
  | .success _ c => { result := none, consumed := c }
  | .failure reasons c => { result := E_Errors reasons, consumed := c }

/-- A sniffer result is inconclusive (the Go error was non-nil). -/
def isInconclusive : SniffResult → Prop
  | .matched _ => False
  | .inconclusive _ => True

instance : DecidablePred isInconclusive := fun r =>
  match r with
  | .matched _ => isFalse (fun h => h)
  | .inconclusive _ => isTrue trivial

/-- The message carried by a result (the protocol of a match, the
reason of an inconclusive result). -/
def reasonOf : SniffResult → String
  | .matched p => p
  | .inconclusive r => r

/-- Every sniffer declines on the given view: the round aggregates. -/
def roundInconclusive (sniffers : List Sniffer) (view : ByteView) : Prop :=
  ∀ s ∈ sniffers, isInconclusive (s view)

instance (sniffers : List Sniffer) (view : ByteView) :
    Decidable (roundInconclusive sniffers view) :=
  inferInstanceAs (Decidable (∀ s ∈ sniffers, isInconclusive (s view)))

/-- Result of one read attempt from the connection: the bytes appended
to the peek buffer, or the read error (a deadline lapse also surfaces
here, as a timeout error from the read). -/
inductive ReadResult where
  | ok (chunk : ByteView)
  | err (e : String)
deriving DecidableEq, Repr

/-- The connection as `PeekStream` uses it, as oracles indexed by the
round number: the outcome of the round's `buffer.ReadOnceFrom(conn)`
and the error, if any, of the round's `conn.SetReadDeadline(deadline)`. -/
structure StreamConn where
  read : Nat → ReadResult
  setDeadlineErr : Nat → Option String

/-- Operations `PeekStream` performs on the connection, recorded in
order: arming the read deadline at an absolute instant, one read, and
clearing the deadline (`SetReadDeadline(time.Time{})`). -/
inductive ConnOp where
  | setDeadline (d : Nat)
  | readFrom
  | clearDeadline
deriving DecidableEq, Repr

/-- Everything observable about one `PeekStream` call: the returned
error (none = nil), the metadata's protocol field after the call, the
trace of connection operations, the number of read attempts, the
number of race rounds run (each invokes every sniffer once), and how
often the protocol field was written. -/
structure StreamOutput where
  result : Option GoError
  protocol : Option String
  trace : List ConnOp
  reads : Nat
  raceRounds : Nat
  protocolWrites : Nat
deriving DecidableEq, Repr

/-- `ReadPayloadTimeout` from the constant package (not part of the
shown sources). Modelled from the spec: "use a default constant if
timeout is zero"; only its being fixed matters, not its value. -/
def ReadPayloadTimeout : Nat := 300

/-- The body of `PeekStream`'s `for i := 0; ; i++` loop.  Each round:
arm the absolute deadline (return `E.Cause(err, "set read deadline")`
if that fails), read once appending to the buffer, clear the deadline,
then on a read error break out to `E.Errors` when `i > 0` and return
`E.Cause(err, "read payload")` on the first round; otherwise race the
sniffers over the full accumulated buffer, returning nil with the
protocol set on a match and looping with the enlarged error list
otherwise.  `sched` gives each round's arrival order; `fuel` bounds
the rounds modelled, `none` meaning the loop has not yet returned. -/
def peekStreamLoop (conn : StreamConn) (sniffers : List Sniffer)
    (sched : Nat → List Nat) (deadline : Nat) (proto0 : Option String) :
    Nat → Nat → ByteView → List String → List ConnOp → Nat → Nat → Option StreamOutput
  | 0, _, _, _, _, _, _ => none
  | fuel + 1, i, buffer, errors, trace, reads, rounds =>
    let trace1 := trace ++ [ConnOp.setDeadline deadline]
    match conn.setDeadlineErr i with
    | some e =>
        some { result := some (.cause "set read deadline" (.str e)),
               protocol := proto0, trace := trace1,
               reads := reads, raceRounds := rounds, protocolWrites := 0 }
    | none =>
      let trace2 := trace1 ++ [ConnOp.readFrom, ConnOp.clearDeadline]
      match conn.read i with
      | .err e =>
          if i > 0 then
            some { result := E_Errors errors, protocol := proto0,
                   trace := trace2, reads := reads + 1,
                   raceRounds := rounds, protocolWrites := 0 }
          else
            some { result := some (.cause "read payload" (.str e)),
                   protocol := proto0, trace := trace2, reads := reads + 1,
                   raceRounds := rounds, protocolWrites := 0 }
      | .ok chunk =>
        let buffer1 := buffer ++ chunk
        match race sniffers buffer1 (sched i) errors with
        | .success p _ =>
            some { result := none, protocol := some p, trace := trace2,
                   reads := reads + 1, raceRounds := rounds + 1,
                   protocolWrites := 1 }
        | .failure errors1 _ =>
            peekStreamLoop conn sniffers sched deadline proto0
              fuel (i + 1) buffer1 errors1 trace2 (reads + 1) (rounds + 1)

/-- `PeekStream` from the source: substitute the default timeout when
zero, fix the absolute deadline once as now + timeout, then run the
retry loop starting from the caller's buffer contents with no
accumulated errors.  `proto0` is the metadata's protocol field on
entry. -/
def PeekStream (conn : StreamConn) (sniffers : List Sniffer)
    (sched : Nat → List Nat) (now timeout : Nat) (proto0 : Option String)
    (buffer0 : ByteView) (fuel : Nat) : Option StreamOutput :=
  let t := if timeout = 0 then ReadPayloadTimeout else timeout
  peekStreamLoop conn sniffers sched (now + t) proto0 fuel 0 buffer0 [] [] 0 0

/-- Bytes a read attempt contributed to the peek buffer. -/
def chunkOf : ReadResult → ByteView
  | .ok c => c
  | .err _ => []

/-- The accumulated buffer contents as raced in round `i + t`, when the
buffer held `b` on entering round `i`: each round appends its chunk. -/
def viewFrom (conn : StreamConn) (b : ByteView) (i : Nat) : Nat → ByteView
  | 0 => b ++ chunkOf (conn.read i)
  | t + 1 => viewFrom conn (b ++ chunkOf (conn.read i)) (i + 1) t

/-- Registration-order reasons of rounds `i .. i + m - 1`, one per
sniffer per round, when the buffer held `b` on entering round `i`. -/
def reasonsFrom (conn : StreamConn) (sniffers : List Sniffer) (b : ByteView) (i : Nat) :
    Nat → List String
  | 0 => []
  | m + 1 =>
      (runAll sniffers (b ++ chunkOf (conn.read i))).map reasonOf
        ++ reasonsFrom conn sniffers (b ++ chunkOf (conn.read i)) (i + 1) m

/-- A detector that matches unconditionally, reporting protocol "p1". -/
def matchP1 : Sniffer := fun _ => .matched "p1"

/-- A detector that matches unconditionally, reporting protocol "p2". -/
def matchP2 : Sniffer := fun _ => .matched "p2"

/-- A detector that never matches. -/
def inconNope : Sniffer := fun _ => .inconclusive "nope"

/-- A TLS-style detector: matches when the first byte is 0x16. -/
def tlsDetector : Sniffer := fun v =>
  if v.head? = some 22 then .matched "tls" else .inconclusive "not tls"

/-- A connection whose every read fails. -/
def connFatal : StreamConn :=
  { read := fun _ => .err "boom", setDeadlineErr := fun _ => none }

/-- A connection that yields one byte of 0x00, then times out. -/
def connOneRound : StreamConn :=
  { read := fun i => if i = 0 then .ok [0] else .err "timeout",
    setDeadlineErr := fun _ => none }

/-- A detector that matches once the accumulated view holds at least
two bytes (so it declines on a one-byte first round). -/
def lenDetector : Sniffer := fun v =>
  if 2 ≤ v.length then .matched "len2" else .inconclusive "short"

/-- A connection that yields one byte per round: `lenDetector` declines
on round 0 and matches on round 1 over the accumulated view. -/
def connTwoRounds : StreamConn :=
  { read := fun i => if i ≤ 1 then .ok [0] else .err "timeout",
    setDeadlineErr := fun _ => none }

/-- A connection whose round-1 `SetReadDeadline` fails. -/
def connSetdlFail : StreamConn :=
  { read := fun _ => .ok [0],
    setDeadlineErr := fun i => if i = 1 then some "closed" else none }

end Sniff

namespace Sniff

theorem collectResults_all_inconclusive (rs : List SniffResult)
    (h : ∀ r ∈ rs, isInconclusive r) (acc : List String) (c : Nat) :
    collectResults rs acc c = .failure (acc ++ rs.map reasonOf) (c + rs.length) := by
  induction rs generalizing acc c with
  | nil => simp [collectResults]
  | cons r rest ih =>
    cases r with
    | matched p => exact absurd (h _ (List.mem_cons_self _ _)) (fun hf => hf)
    | inconclusive s =>
      have := ih (fun r hr => h r (List.mem_cons_of_mem _ hr)) (acc ++ [s]) (c + 1)
      simp [collectResults, this, List.append_assoc, reasonOf]
      omega

theorem collectResults_has_match (rs : List SniffResult)
    (h : ∃ r ∈ rs, ¬ isInconclusive r) (acc : List String) (c : Nat) :
    ∃ p k, collectResults rs acc c = .success p k := by
  induction rs generalizing acc c with
  | nil => simp at h
  | cons r rest ih =>
    cases r with
    | matched p => exact ⟨p, c + 1, rfl⟩
    | inconclusive s =>
      obtain ⟨r', hr', hm⟩ := h
      rcases List.mem_cons.mp hr' with rfl | hmem
      · exact absurd trivial hm
      · exact ih ⟨r', hmem, hm⟩ (acc ++ [s]) (c + 1)

theorem collectResults_first_match (pre : List SniffResult)
    (hpre : ∀ r ∈ pre, isInconclusive r) (p : String) (rest : List SniffResult)
    (acc : List String) (c : Nat) :
    collectResults (pre ++ .matched p :: rest) acc c = .success p (c + pre.length + 1) := by
  induction pre generalizing acc c with
  | nil => simp [collectResults]
  | cons r pre' ih =>
    cases r with
    | matched q => exact absurd (hpre _ (List.mem_cons_self _ _)) (fun hf => hf)
    | inconclusive s =>
      have := ih (fun r hr => hpre r (List.mem_cons_of_mem _ hr)) (acc ++ [s]) (c + 1)
      simp only [List.cons_append, collectResults, this, List.length_cons]
      have harith : c + 1 + pre'.length + 1 = c + (pre'.length + 1) + 1 := by omega
      rw [harith] at this
      exact this

theorem filterMap_get?_range (rs : List SniffResult) :
    (List.range rs.length).filterMap (fun i => rs.get? i) = rs := by
  induction rs with
  | nil => simp
  | cons r rest ih =>
    rw [List.length_cons, List.range_succ_eq_map, List.filterMap_cons]
    simp only [List.get?_cons_zero, List.filterMap_map]
    have : (fun i => (r :: rest).get? (Nat.succ i)) = fun i => rest.get? i := by
      funext i; rfl
    simp only [Function.comp_def, this, ih]

/-- With a true schedule (a permutation of the registry indices), the
arrival-ordered result list is a permutation of the registration-order
result list. -/
theorem arrivalOrder_perm (rs : List SniffResult) (arrival : List Nat)
    (h : arrival.Perm (List.range rs.length)) :
    (arrivalOrder rs arrival).Perm rs := by
  have h1 : (arrivalOrder rs arrival).Perm
      ((List.range rs.length).filterMap (fun i => rs.get? i)) :=
    h.filterMap _
  rw [filterMap_get?_range] at h1
  exact h1

theorem length_runAll (sniffers : List Sniffer) (view : ByteView) :
    (runAll sniffers view).length = sniffers.length := by
  simp [runAll]

/-- A round in which every sniffer declines appends a permutation of
the registration-order reasons and consumes every result. -/
theorem race_failure (sniffers : List Sniffer) (view : ByteView) (arrival : List Nat)
    (acc : List String)
    (hperm : arrival.Perm (List.range sniffers.length))
    (hno : roundInconclusive sniffers view) :
    ∃ tail, race sniffers view arrival acc = .failure (acc ++ tail) sniffers.length ∧
      tail.Perm ((runAll sniffers view).map reasonOf) := by
  have hlen : arrival.Perm (List.range (runAll sniffers view).length) := by
    rw [length_runAll]; exact hperm
  have hao : (arrivalOrder (runAll sniffers view) arrival).Perm (runAll sniffers view) :=
    arrivalOrder_perm _ _ hlen
  have hall : ∀ r ∈ arrivalOrder (runAll sniffers view) arrival, isInconclusive r := by
    intro r hr
    have hr2 : r ∈ runAll sniffers view := hao.mem_iff.mp hr
    obtain ⟨s, hs, rfl⟩ := List.mem_map.mp hr2
    exact hno s hs
  refine ⟨(arrivalOrder (runAll sniffers view) arrival).map reasonOf, ?_, hao.map _⟩
  rw [race, collectResults_all_inconclusive _ hall]
  have : (arrivalOrder (runAll sniffers view) arrival).length = sniffers.length := by
    rw [hao.length_eq, length_runAll]
  rw [this, Nat.zero_add]

/-- A round in which some sniffer matches returns a success. -/
theorem race_success (sniffers : List Sniffer) (view : ByteView) (arrival : List Nat)
    (acc : List String)
    (hperm : arrival.Perm (List.range sniffers.length))
    (hm : ∃ s ∈ sniffers, ¬ isInconclusive (s view)) :
    ∃ p k, race sniffers view arrival acc = .success p k := by
  have hlen : arrival.Perm (List.range (runAll sniffers view).length) := by
    rw [length_runAll]; exact hperm
  have hao : (arrivalOrder (runAll sniffers view) arrival).Perm (runAll sniffers view) :=
    arrivalOrder_perm _ _ hlen
  obtain ⟨s, hs, hsm⟩ := hm
  have hmem : s view ∈ runAll sniffers view := List.mem_map.mpr ⟨s, hs, rfl⟩
  exact collectResults_has_match _ ⟨s view, hao.mem_iff.mpr hmem, hsm⟩ acc 0

theorem reasonsFrom_length (conn : StreamConn) (sniffers : List Sniffer) :
    ∀ (m : Nat) (b : ByteView) (i : Nat),
      (reasonsFrom conn sniffers b i m).length = m * sniffers.length := by
  intro m
  induction m with
  | zero => intro b i; simp [reasonsFrom]
  | succ m ih =>
    intro b i
    simp [reasonsFrom, ih, runAll, Nat.succ_mul, Nat.add_comm]

theorem reasonsFrom_nil_sniffers (conn : StreamConn) :
    ∀ (m : Nat) (b : ByteView) (i : Nat), reasonsFrom conn [] b i m = [] := by
  intro m
  induction m with
  | zero => intro b i; rfl
  | succ m ih => intro b i; simp [reasonsFrom, runAll, ih]

/-- Runs of the retry loop in which rounds `i .. i+m-1` read successfully
but no sniffer matches, and the read of round `i+m` (not the overall
first round) fails: the loop exits normally with `E.Errors` of every
collected reason, one per sniffer per completed round, the protocol
untouched. -/
theorem peekStreamLoop_exhaust (conn : StreamConn) (sniffers : List Sniffer)
    (sched : Nat → List Nat) (deadline : Nat) (proto0 : Option String) (e : String) :
    ∀ (m i : Nat) (b : ByteView) (errors : List String) (trace : List ConnOp)
      (reads rounds fuel : Nat),
      m + 1 ≤ fuel →
      0 < i + m →
      (∀ t, t < m → conn.setDeadlineErr (i + t) = none) →
      conn.setDeadlineErr (i + m) = none →
      (∀ t, t < m → ∃ c, conn.read (i + t) = .ok c) →
      conn.read (i + m) = .err e →
      (∀ t, t < m → roundInconclusive sniffers (viewFrom conn b i t)) →
      (∀ t, t < m → (sched (i + t)).Perm (List.range sniffers.length)) →
      ∃ errsF tr,
        peekStreamLoop conn sniffers sched deadline proto0 fuel i b errors trace reads rounds =
          some { result := E_Errors errsF, protocol := proto0, trace := tr,
                 reads := reads + m + 1, raceRounds := rounds + m, protocolWrites := 0 } ∧
        errsF.Perm (errors ++ reasonsFrom conn sniffers b i m) := by
  intro m
  induction m with
  | zero =>
    intro i b errors trace reads rounds fuel hfuel hpos hsd hsdm hrd hre hnm hsch
    match fuel, hfuel with
    | fuel + 1, _ =>
      rw [Nat.add_zero] at hsdm hre
      rw [Nat.add_zero] at hpos
      refine ⟨errors, trace ++ [ConnOp.setDeadline deadline] ++ [ConnOp.readFrom, ConnOp.clearDeadline], ?_, by simp [reasonsFrom]⟩
      simp only [peekStreamLoop, hsdm, hre, if_pos hpos, Nat.add_zero]
  | succ m ih =>
    intro i b errors trace reads rounds fuel hfuel hpos hsd hsdm hrd hre hnm hsch
    match fuel, hfuel with
    | fuel + 1, hfuel =>
      have hsd0 : conn.setDeadlineErr i = none := by
        have := hsd 0 (Nat.succ_pos m); rwa [Nat.add_zero] at this
      obtain ⟨c, hc⟩ := hrd 0 (Nat.succ_pos m)
      rw [Nat.add_zero] at hc
      have hno0 : roundInconclusive sniffers (b ++ c) := by
        have := hnm 0 (Nat.succ_pos m)
        rw [viewFrom, hc] at this
        exact this
      have hsch0 : (sched i).Perm (List.range sniffers.length) := by
        have := hsch 0 (Nat.succ_pos m); rwa [Nat.add_zero] at this
      obtain ⟨tail, hrace, htail⟩ := race_failure sniffers (b ++ c) (sched i) errors hsch0 hno0
      have hstep :
          peekStreamLoop conn sniffers sched deadline proto0 (fuel + 1) i b errors trace reads rounds =
            peekStreamLoop conn sniffers sched deadline proto0 fuel (i + 1) (b ++ c)
              (errors ++ tail)
              (trace ++ [ConnOp.setDeadline deadline] ++ [ConnOp.readFrom, ConnOp.clearDeadline])
              (reads + 1) (rounds + 1) := by
        simp only [peekStreamLoop, hsd0, hc, hrace]
      have ihh := ih (i + 1) (b ++ c) (errors ++ tail)
        (trace ++ [ConnOp.setDeadline deadline] ++ [ConnOp.readFrom, ConnOp.clearDeadline])
        (reads + 1) (rounds + 1) fuel (by omega) (by omega)
        (fun t ht => by
          have := hsd (t + 1) (Nat.succ_lt_succ ht)
          rwa [show i + (t + 1) = i + 1 + t by omega] at this)
        (by
          have := hsdm
          rwa [show i + (m + 1) = i + 1 + m by omega] at this)
        (fun t ht => by
          have := hrd (t + 1) (Nat.succ_lt_succ ht)
          rwa [show i + (t + 1) = i + 1 + t by omega] at this)
        (by
          have := hre
          rwa [show i + (m + 1) = i + 1 + m by omega] at this)
        (fun t ht => by
          have := hnm (t + 1) (Nat.succ_lt_succ ht)
          rw [viewFrom, hc] at this
          exact this)
        (fun t ht => by
          have := hsch (t + 1) (Nat.succ_lt_succ ht)
          rwa [show i + (t + 1) = i + 1 + t by omega] at this)
      obtain ⟨errsF, tr, heq, hperm⟩ := ihh
      refine ⟨errsF, tr, ?_, ?_⟩
      · rw [hstep, heq]
        have h1 : reads + 1 + m + 1 = reads + (m + 1) + 1 := by omega
        have h2 : rounds + 1 + m = rounds + (m + 1) := by omega
        rw [h1, h2]
      · have hshape : reasonsFrom conn sniffers b i (m + 1) =
            (runAll sniffers (b ++ c)).map reasonOf
              ++ reasonsFrom conn sniffers (b ++ c) (i + 1) m := by
          rw [reasonsFrom, hc]
          rfl
        rw [hshape]
        refine hperm.trans ?_
        rw [List.append_assoc]
        exact (htail.append_right _).append_left errors

/-- Runs of the retry loop in which rounds `i .. i+m-1` read successfully
with no match and a sniffer matches over the accumulated view of round
`i+m`: the loop returns nil having read exactly `m+1` times, with the
protocol written exactly once. -/
theorem peekStreamLoop_match (conn : StreamConn) (sniffers : List Sniffer)
    (sched : Nat → List Nat) (deadline : Nat) (proto0 : Option String) :
    ∀ (m i : Nat) (b : ByteView) (errors : List String) (trace : List ConnOp)
      (reads rounds fuel : Nat),
      m + 1 ≤ fuel →
      (∀ t, t ≤ m → conn.setDeadlineErr (i + t) = none) →
      (∀ t, t ≤ m → ∃ c, conn.read (i + t) = .ok c) →
      (∀ t, t < m → roundInconclusive sniffers (viewFrom conn b i t)) →
      (∀ t, t ≤ m → (sched (i + t)).Perm (List.range sniffers.length)) →
      (∃ s ∈ sniffers, ¬ isInconclusive (s (viewFrom conn b i m))) →
      ∃ p tr,
        peekStreamLoop conn sniffers sched deadline proto0 fuel i b errors trace reads rounds =
          some { result := none, protocol := some p, trace := tr,
                 reads := reads + m + 1, raceRounds := rounds + m + 1,
                 protocolWrites := 1 } := by
  intro m
  induction m with
  | zero =>
    intro i b errors trace reads rounds fuel hfuel hsd hrd hnm hsch hm
    match fuel, hfuel with
    | fuel + 1, _ =>
      have hsd0 : conn.setDeadlineErr i = none := by
        have := hsd 0 (Nat.le_refl 0); rwa [Nat.add_zero] at this
      obtain ⟨c, hc⟩ := hrd 0 (Nat.le_refl 0)
      rw [Nat.add_zero] at hc
      have hsch0 : (sched i).Perm (List.range sniffers.length) := by
        have := hsch 0 (Nat.le_refl 0); rwa [Nat.add_zero] at this
      have hm0 : ∃ s ∈ sniffers, ¬ isInconclusive (s (b ++ c)) := by
        obtain ⟨s, hs, hsm⟩ := hm
        rw [viewFrom, hc] at hsm
        exact ⟨s, hs, hsm⟩
      obtain ⟨p, k, hrace⟩ := race_success sniffers (b ++ c) (sched i) errors hsch0 hm0
      refine ⟨p, trace ++ [ConnOp.setDeadline deadline] ++ [ConnOp.readFrom, ConnOp.clearDeadline], ?_⟩
      simp only [peekStreamLoop, hsd0, hc, hrace, Nat.add_zero]
  | succ m ih =>
    intro i b errors trace reads rounds fuel hfuel hsd hrd hnm hsch hm
    match fuel, hfuel with
    | fuel + 1, hfuel =>
      have hsd0 : conn.setDeadlineErr i = none := by
        have := hsd 0 (Nat.zero_le _); rwa [Nat.add_zero] at this
      obtain ⟨c, hc⟩ := hrd 0 (Nat.zero_le _)
      rw [Nat.add_zero] at hc
      have hno0 : roundInconclusive sniffers (b ++ c) := by
        have := hnm 0 (Nat.succ_pos m)
        rw [viewFrom, hc] at this
        exact this
      have hsch0 : (sched i).Perm (List.range sniffers.length) := by
        have := hsch 0 (Nat.zero_le _); rwa [Nat.add_zero] at this
      obtain ⟨tail, hrace, _⟩ := race_failure sniffers (b ++ c) (sched i) errors hsch0 hno0
      have hstep :
          peekStreamLoop conn sniffers sched deadline proto0 (fuel + 1) i b errors trace reads rounds =
            peekStreamLoop conn sniffers sched deadline proto0 fuel (i + 1) (b ++ c)
              (errors ++ tail)
              (trace ++ [ConnOp.setDeadline deadline] ++ [ConnOp.readFrom, ConnOp.clearDeadline])
              (reads + 1) (rounds + 1) := by
        simp only [peekStreamLoop, hsd0, hc, hrace]
      have ihh := ih (i + 1) (b ++ c) (errors ++ tail)
        (trace ++ [ConnOp.setDeadline deadline] ++ [ConnOp.readFrom, ConnOp.clearDeadline])
        (reads + 1) (rounds + 1) fuel (by omega)
        (fun t ht => by
          have := hsd (t + 1) (Nat.succ_le_succ ht)
          rwa [show i + (t + 1) = i + 1 + t by omega] at this)
        (fun t ht => by
          have := hrd (t + 1) (Nat.succ_le_succ ht)
          rwa [show i + (t + 1) = i + 1 + t by omega] at this)
        (fun t ht => by
          have := hnm (t + 1) (Nat.succ_lt_succ ht)
          rw [viewFrom, hc] at this
          exact this)
        (fun t ht => by
          have := hsch (t + 1) (Nat.succ_le_succ ht)
          rwa [show i + (t + 1) = i + 1 + t by omega] at this)
        (by
          obtain ⟨s, hs, hsm⟩ := hm
          rw [viewFrom, hc] at hsm
          exact ⟨s, hs, hsm⟩)
      obtain ⟨p, tr, heq⟩ := ihh
      refine ⟨p, tr, ?_⟩
      rw [hstep, heq]
      have h1 : reads + 1 + m + 1 = reads + (m + 1) + 1 := by omega
      have h2 : rounds + 1 + m + 1 = rounds + (m + 1) + 1 := by omega
      rw [h1, h2]

/-- Runs of the retry loop in which rounds `i .. i+m-1` complete without
a match and `SetReadDeadline` fails at round `i+m`: the loop returns
the wrapped deadline error at once, dropping the accumulated reasons,
the protocol untouched. -/
theorem peekStreamLoop_setdl (conn : StreamConn) (sniffers : List Sniffer)
    (sched : Nat → List Nat) (deadline : Nat) (proto0 : Option String) (e : String) :
    ∀ (m i : Nat) (b : ByteView) (errors : List String) (trace : List ConnOp)
      (reads rounds fuel : Nat),
      m + 1 ≤ fuel →
      (∀ t, t < m → conn.setDeadlineErr (i + t) = none) →
      (∀ t, t < m → ∃ c, conn.read (i + t) = .ok c) →
      (∀ t, t < m → roundInconclusive sniffers (viewFrom conn b i t)) →
      (∀ t, t < m → (sched (i + t)).Perm (List.range sniffers.length)) →
      conn.setDeadlineErr (i + m) = some e →
      ∃ tr,
        peekStreamLoop conn sniffers sched deadline proto0 fuel i b errors trace reads rounds =
          some { result := some (.cause "set read deadline" (.str e)),
                 protocol := proto0, trace := tr,
                 reads := reads + m, raceRounds := rounds + m, protocolWrites := 0 } := by
  intro m
  induction m with
  | zero =>
    intro i b errors trace reads rounds fuel hfuel hsd hrd hnm hsch hsdm
    match fuel, hfuel with
    | fuel + 1, _ =>
      rw [Nat.add_zero] at hsdm
      refine ⟨trace ++ [ConnOp.setDeadline deadline], ?_⟩
      simp only [peekStreamLoop, hsdm, Nat.add_zero]
  | succ m ih =>
    intro i b errors trace reads rounds fuel hfuel hsd hrd hnm hsch hsdm
    match fuel, hfuel with
    | fuel + 1, hfuel =>
      have hsd0 : conn.setDeadlineErr i = none := by
        have := hsd 0 (Nat.succ_pos m); rwa [Nat.add_zero] at this
      obtain ⟨c, hc⟩ := hrd 0 (Nat.succ_pos m)
      rw [Nat.add_zero] at hc
      have hno0 : roundInconclusive sniffers (b ++ c) := by
        have := hnm 0 (Nat.succ_pos m)
        rw [viewFrom, hc] at this
        exact this
      have hsch0 : (sched i).Perm (List.range sniffers.length) := by
        have := hsch 0 (Nat.succ_pos m); rwa [Nat.add_zero] at this
      obtain ⟨tail, hrace, _⟩ := race_failure sniffers (b ++ c) (sched i) errors hsch0 hno0
      have hstep :
          peekStreamLoop conn sniffers sched deadline proto0 (fuel + 1) i b errors trace reads rounds =
            peekStreamLoop conn sniffers sched deadline proto0 fuel (i + 1) (b ++ c)
              (errors ++ tail)
              (trace ++ [ConnOp.setDeadline deadline] ++ [ConnOp.readFrom, ConnOp.clearDeadline])
              (reads + 1) (rounds + 1) := by
        simp only [peekStreamLoop, hsd0, hc, hrace]
      have ihh := ih (i + 1) (b ++ c) (errors ++ tail)
        (trace ++ [ConnOp.setDeadline deadline] ++ [ConnOp.readFrom, ConnOp.clearDeadline])
        (reads + 1) (rounds + 1) fuel (by omega)
        (fun t ht => by
          have := hsd (t + 1) (Nat.succ_lt_succ ht)
          rwa [show i + (t + 1) = i + 1 + t by omega] at this)
        (fun t ht => by
          have := hrd (t + 1) (Nat.succ_lt_succ ht)
          rwa [show i + (t + 1) = i + 1 + t by omega] at this)
        (fun t ht => by
          have := hnm (t + 1) (Nat.succ_lt_succ ht)
          rw [viewFrom, hc] at this
          exact this)
        (fun t ht => by
          have := hsch (t + 1) (Nat.succ_lt_succ ht)
          rwa [show i + (t + 1) = i + 1 + t by omega] at this)
        (by
          have := hsdm
          rwa [show i + (m + 1) = i + 1 + m by omega] at this)
      obtain ⟨tr, heq⟩ := ihh
      refine ⟨tr, ?_⟩
      rw [hstep, heq]
      have h1 : reads + 1 + m = reads + (m + 1) := by omega
      have h2 : rounds + 1 + m = rounds + (m + 1) := by omega
      rw [h1, h2]

/-- Every terminating run of the retry loop leaves on the connection a
trace of whole rounds, each arming the same absolute deadline, reading
once, and clearing the deadline immediately after the read, with at
most a final lone deadline-arming (the round whose `SetReadDeadline`
failed). -/
theorem peekStreamLoop_trace (conn : StreamConn) (sniffers : List Sniffer)
    (sched : Nat → List Nat) (deadline : Nat) (proto0 : Option String) :
    ∀ (fuel i : Nat) (b : ByteView) (errors : List String) (trace : List ConnOp)
      (reads rounds : Nat) (out : StreamOutput),
      peekStreamLoop conn sniffers sched deadline proto0 fuel i b errors trace reads rounds =
        some out →
      ∃ r fin,
        out.trace = trace ++
          (List.replicate r [ConnOp.setDeadline deadline, ConnOp.readFrom, ConnOp.clearDeadline]).flatten
          ++ fin ∧
        (fin = [] ∨ fin = [ConnOp.setDeadline deadline]) := by
  intro fuel
  induction fuel with
  | zero =>
    intro i b errors trace reads rounds out h
    simp [peekStreamLoop] at h
  | succ fuel ih =>
    intro i b errors trace reads rounds out h
    cases hsd : conn.setDeadlineErr i with
    | some e =>
      simp only [peekStreamLoop, hsd] at h
      cases h
      refine ⟨0, [ConnOp.setDeadline deadline], ?_, Or.inr rfl⟩
      simp
    | none =>
      cases hrd : conn.read i with
      | err e =>
        simp only [peekStreamLoop, hsd, hrd] at h
        split at h <;>
        · cases h
          refine ⟨1, [], ?_, Or.inl rfl⟩
          simp
      | ok c =>
        cases hrace : race sniffers (b ++ c) (sched i) errors with
        | success p k =>
          simp only [peekStreamLoop, hsd, hrd, hrace] at h
          cases h
          refine ⟨1, [], ?_, Or.inl rfl⟩
          simp
        | failure errors1 k =>
          simp only [peekStreamLoop, hsd, hrd, hrace] at h
          obtain ⟨r, fin, htr, hfin⟩ := ih (i + 1) (b ++ c) errors1
            (trace ++ [ConnOp.setDeadline deadline] ++ [ConnOp.readFrom, ConnOp.clearDeadline])
            (reads + 1) (rounds + 1) out h
          refine ⟨r + 1, fin, ?_, hfin⟩
          rw [htr]
          simp [List.replicate_succ, List.append_assoc]

/-- C6: `Skip` is a pure function of the destination port that returns
true exactly when the port is one of 25, 465, 587, 143, 993, 110, 995,
and false for every other port. -/
theorem skip_iff_mail_port (port : Nat) :
    Skip port = true ↔
      port = 25 ∨ port = 465 ∨ port = 587 ∨ port = 143 ∨ port = 993 ∨
      port = 110 ∨ port = 995 := by
  unfold Skip
  split <;> simp_all

/-- C1, counterexample: with two detectors that both match the same view
and arrival order [1, 0] (a valid schedule for two detectors), the race
returns the SECOND-registered detector's protocol, so the result is not
the first-registered match and differs across schedules. -/
theorem race_not_first_registered :
    ([1, 0] : List Nat).Perm (List.range 2) ∧
    race [matchP1, matchP2] [0] [1, 0] [] = .success "p2" 1 ∧
    "p2" ≠ "p1" := ⟨by decide, rfl, by decide⟩

/-- C1, amended: the race returns the protocol of the first MATCHING
detector in result-arrival order — a deterministic function of the
view and the arrival schedule, but the registration order does not
arbitrate ties. -/
theorem race_first_arrival (sniffers : List Sniffer) (view : ByteView)
    (arrival : List Nat) (acc : List String) (pre : List SniffResult)
    (p : String) (rest : List SniffResult)
    (hsplit : arrivalOrder (runAll sniffers view) arrival = pre ++ .matched p :: rest)
    (hpre : ∀ r ∈ pre, isInconclusive r) :
    race sniffers view arrival acc = .success p (pre.length + 1) := by
  rw [race, hsplit, collectResults_first_match pre hpre p rest acc 0, Nat.zero_add]

/-- C1, witness for the amended theorem: one declining detector ahead of
a matching one in arrival order. -/
theorem race_first_arrival_witness :
    race [inconNope, matchP2] [0] [0, 1] [] = .success "p2" 2 :=
  race_first_arrival [inconNope, matchP2] [0] [0, 1] []
    [.inconclusive "nope"] "p2" [] rfl (by decide)

/-- C2, counterexample: with an empty registry, `PeekPacket` returns
`E.Errors` of the empty aggregate, which is nil — exactly the success
value, contradicting the claim's "(not a success)". -/
theorem peekPacket_empty_is_nil : (PeekPacket [] [1, 2, 3] []).result = none := rfl

/-- C2, amended: for an empty registry `PeekPacket` returns at once,
consuming zero results, with the empty aggregated failure, which
`E.Errors` collapses to nil (indistinguishable from success). -/
theorem peekPacket_empty_registry (packet : ByteView) (arrival : List Nat) :
    PeekPacket [] packet arrival = { result := none, consumed := 0 } := by
  have h : arrivalOrder (runAll [] packet) arrival = [] := by
    simp [arrivalOrder, runAll]
  simp [PeekPacket, race, h, collectResults, E_Errors]

/-- C3: when the very first read fails, `PeekStream` returns that error
wrapped as "read payload" immediately: no race round runs (so no
detector is invoked) and the metadata's protocol field is unchanged. -/
theorem peekStream_first_read_fatal (conn : StreamConn) (sniffers : List Sniffer)
    (sched : Nat → List Nat) (now timeout : Nat) (proto0 : Option String)
    (buffer0 : ByteView) (fuel : Nat) (e : String)
    (hsd : conn.setDeadlineErr 0 = none)
    (hre : conn.read 0 = .err e)
    (hfuel : 0 < fuel) :
    PeekStream conn sniffers sched now timeout proto0 buffer0 fuel =
      some { result := some (.cause "read payload" (.str e)),
             protocol := proto0,
             trace := [ConnOp.setDeadline
                         (now + (if timeout = 0 then ReadPayloadTimeout else timeout)),
                       ConnOp.readFrom, ConnOp.clearDeadline],
             reads := 1, raceRounds := 0, protocolWrites := 0 } := by
  match fuel, hfuel with
  | fuel + 1, _ =>
    simp only [PeekStream, peekStreamLoop, hsd, hre, gt_iff_lt, Nat.lt_irrefl, if_false]
    rfl

/-- C3, witness: a connection whose first read fails with "boom". -/
theorem peekStream_first_read_fatal_witness :
    connFatal.read 0 = .err "boom" ∧
    PeekStream connFatal [] (fun _ => []) 0 5 none [] 1 =
      some { result := some (.cause "read payload" (.str "boom")),
             protocol := none,
             trace := [ConnOp.setDeadline 5, ConnOp.readFrom, ConnOp.clearDeadline],
             reads := 1, raceRounds := 0, protocolWrites := 0 } :=
  ⟨rfl, peekStream_first_read_fatal connFatal [] (fun _ => []) 0 5 none [] 1 "boom"
    rfl rfl (by decide)⟩

/-- C4: when a read fails at round k after k ≥ 1 completed rounds with
no match, `PeekStream` exits the loop normally and returns a single
`E.Errors` aggregate whose reasons are a permutation of the
registration-order reasons of every completed round — exactly one per
sniffer per round. -/
theorem peekStream_exhausted (conn : StreamConn) (sniffers : List Sniffer)
    (sched : Nat → List Nat) (now timeout : Nat) (proto0 : Option String)
    (buffer0 : ByteView) (k fuel : Nat) (e : String)
    (hk : 1 ≤ k) (hfuel : k + 1 ≤ fuel)
    (hsd : ∀ t, t ≤ k → conn.setDeadlineErr t = none)
    (hrd : ∀ t, t < k → ∃ c, conn.read t = .ok c)
    (hre : conn.read k = .err e)
    (hnm : ∀ t, t < k → roundInconclusive sniffers (viewFrom conn buffer0 0 t))
    (hsch : ∀ t, t < k → (sched t).Perm (List.range sniffers.length)) :
    ∃ errsF tr,
      PeekStream conn sniffers sched now timeout proto0 buffer0 fuel =
        some { result := E_Errors errsF, protocol := proto0, trace := tr,
               reads := k + 1, raceRounds := k, protocolWrites := 0 } ∧
      errsF.Perm (reasonsFrom conn sniffers buffer0 0 k) ∧
      (reasonsFrom conn sniffers buffer0 0 k).length = k * sniffers.length := by
  obtain ⟨errsF, tr, heq, hperm⟩ :=
    peekStreamLoop_exhaust conn sniffers sched
      (now + (if timeout = 0 then ReadPayloadTimeout else timeout)) proto0 e
      k 0 buffer0 [] [] 0 0 fuel hfuel (by omega)
      (fun t ht => by rw [Nat.zero_add]; exact hsd t (Nat.le_of_lt ht))
      (by rw [Nat.zero_add]; exact hsd k (Nat.le_refl k))
      (fun t ht => by rw [Nat.zero_add]; exact hrd t ht)
      (by rw [Nat.zero_add]; exact hre)
      hnm
      (fun t ht => by rw [Nat.zero_add]; exact hsch t ht)
  simp only [Nat.zero_add] at heq
  rw [List.nil_append] at hperm
  exact ⟨errsF, tr, heq, hperm, reasonsFrom_length conn sniffers k buffer0 0⟩

/-- C4, witness: one declining sniffer, one successful round, then a
timed-out read. -/
theorem peekStream_exhausted_witness :
    ∃ errsF tr,
      PeekStream connOneRound [inconNope] (fun _ => [0]) 0 5 none [] 2 =
        some { result := E_Errors errsF, protocol := none, trace := tr,
               reads := 2, raceRounds := 1, protocolWrites := 0 } ∧
      errsF.Perm (reasonsFrom connOneRound [inconNope] [] 0 1) ∧
      (reasonsFrom connOneRound [inconNope] [] 0 1).length = 1 * 1 :=
  peekStream_exhausted connOneRound [inconNope] (fun _ => [0]) 0 5 none [] 1 2
    "timeout" (by decide) (by decide)
    (fun t ht => rfl)
    (fun t ht => ⟨[0], by have h0 : t = 0 := by omega
                          subst h0; rfl⟩)
    rfl
    (fun t ht => by have h0 : t = 0 := by omega
                    subst h0; decide)
    (fun t ht => by
      show ([0] : List Nat).Perm (List.range 1)
      decide)

/-- C5: the absolute deadline is fixed once as now + timeout (default
constant when the timeout is zero); every round of any terminating
`PeekStream` run arms that same deadline before its read and clears the
connection's deadline immediately after the read, on success and error
paths alike, with at most a final lone arming (a round whose
`SetReadDeadline` call itself failed). -/
theorem peekStream_deadline_discipline (conn : StreamConn) (sniffers : List Sniffer)
    (sched : Nat → List Nat) (now timeout : Nat) (proto0 : Option String)
    (buffer0 : ByteView) (fuel : Nat) (out : StreamOutput)
    (h : PeekStream conn sniffers sched now timeout proto0 buffer0 fuel = some out) :
    ∃ r fin,
      out.trace =
        (List.replicate r
          [ConnOp.setDeadline (now + (if timeout = 0 then ReadPayloadTimeout else timeout)),
           ConnOp.readFrom, ConnOp.clearDeadline]).flatten ++ fin ∧
      (fin = [] ∨
        fin = [ConnOp.setDeadline
                 (now + (if timeout = 0 then ReadPayloadTimeout else timeout))]) := by
  obtain ⟨r, fin, htr, hfin⟩ :=
    peekStreamLoop_trace conn sniffers sched
      (now + (if timeout = 0 then ReadPayloadTimeout else timeout)) proto0
      fuel 0 buffer0 [] [] 0 0 out (by simpa [PeekStream] using h)
  rw [List.nil_append] at htr
  exact ⟨r, fin, htr, hfin⟩

/-- C5, witness: a one-round run; its trace is one full
arm-read-clear block at the computed deadline. -/
theorem peekStream_deadline_discipline_witness :
    ∃ r fin,
      ({ result := some (.cause "read payload" (.str "boom")), protocol := none,
         trace := [ConnOp.setDeadline 5, ConnOp.readFrom, ConnOp.clearDeadline],
         reads := 1, raceRounds := 0, protocolWrites := 0 } : StreamOutput).trace =
        (List.replicate r [ConnOp.setDeadline 5, ConnOp.readFrom, ConnOp.clearDeadline]).flatten
          ++ fin ∧
      (fin = [] ∨ fin = [ConnOp.setDeadline 5]) :=
  peekStream_deadline_discipline connFatal [] (fun _ => []) 0 5 none [] 1 _ rfl

/-- C7, counterexample: with two always-matching detectors and arrival
order [0, 1], `PeekPacket` returns after consuming only one of the two
results — the second detector's invocation is still outstanding when
the call returns, so the call does not wait for all launched
detectors. -/
theorem peekPacket_returns_before_drain :
    (PeekPacket [matchP1, matchP2] [0] [0, 1]).consumed = 1 ∧
    ([0, 1] : List Nat).Perm (List.range 2) ∧
    (1 : Nat) < ([matchP1, matchP2] : List Sniffer).length :=
  ⟨rfl, by decide, by decide⟩

/-- C7, amended: only the no-match path drains the channel completely,
consuming one result per registered detector before returning; on a
match the call returns early and the remaining detector invocations
outlive it, completing against the buffered channel in the background. -/
theorem peekPacket_failure_drains (sniffers : List Sniffer) (packet : ByteView)
    (arrival : List Nat)
    (hperm : arrival.Perm (List.range sniffers.length))
    (hno : roundInconclusive sniffers packet) :
    (PeekPacket sniffers packet arrival).consumed = sniffers.length := by
  obtain ⟨tail, hrace, _⟩ := race_failure sniffers packet arrival [] hperm hno
  simp [PeekPacket, hrace]

/-- C7, witness for the amended theorem: two declining detectors are
both drained. -/
theorem peekPacket_failure_drains_witness :
    (PeekPacket [inconNope, inconNope] [9] [1, 0]).consumed = 2 :=
  peekPacket_failure_drains [inconNope, inconNope] [9] [1, 0] (by decide) (by decide)

/-- C8: for a stream that yields only inconclusive views on rounds
1..k-1 and a view matched by some detector on round k (reached before
the deadline: every read succeeds), `PeekStream` returns nil after
exactly k reads, with the protocol field written exactly once. -/
theorem peekStream_match_round_k (conn : StreamConn) (sniffers : List Sniffer)
    (sched : Nat → List Nat) (now timeout : Nat) (proto0 : Option String)
    (buffer0 : ByteView) (k fuel : Nat)
    (hk : 1 ≤ k) (hfuel : k ≤ fuel)
    (hsd : ∀ t, t < k → conn.setDeadlineErr t = none)
    (hrd : ∀ t, t < k → ∃ c, conn.read t = .ok c)
    (hnm : ∀ t, t + 1 < k → roundInconclusive sniffers (viewFrom conn buffer0 0 t))
    (hsch : ∀ t, t < k → (sched t).Perm (List.range sniffers.length))
    (hm : ∃ s ∈ sniffers, ¬ isInconclusive (s (viewFrom conn buffer0 0 (k - 1)))) :
    ∃ p tr,
      PeekStream conn sniffers sched now timeout proto0 buffer0 fuel =
        some { result := none, protocol := some p, trace := tr,
               reads := k, raceRounds := k, protocolWrites := 1 } := by
  obtain ⟨m, rfl⟩ : ∃ m, k = m + 1 := ⟨k - 1, by omega⟩
  obtain ⟨p, tr, heq⟩ :=
    peekStreamLoop_match conn sniffers sched
      (now + (if timeout = 0 then ReadPayloadTimeout else timeout)) proto0
      m 0 buffer0 [] [] 0 0 fuel (by omega)
      (fun t ht => by rw [Nat.zero_add]; exact hsd t (by omega))
      (fun t ht => by rw [Nat.zero_add]; exact hrd t (by omega))
      (fun t ht => hnm t (by omega))
      (fun t ht => by rw [Nat.zero_add]; exact hsch t (by omega))
      (by simpa using hm)
  simp only [Nat.zero_add] at heq
  exact ⟨p, tr, heq⟩

/-- C8, witness: a detector that needs two bytes, a connection yielding
one byte per round: inconclusive round 1, match on round 2. -/
theorem peekStream_match_round_k_witness :
    ∃ p tr,
      PeekStream connTwoRounds [lenDetector] (fun _ => [0]) 0 5 none [] 2 =
        some { result := none, protocol := some p, trace := tr,
               reads := 2, raceRounds := 2, protocolWrites := 1 } :=
  peekStream_match_round_k connTwoRounds [lenDetector] (fun _ => [0]) 0 5 none [] 2 2
    (by decide) (by decide)
    (fun t ht => rfl)
    (fun t ht => ⟨[0], by have h01 : t = 0 ∨ t = 1 := by omega
                          rcases h01 with rfl | rfl <;> rfl⟩)
    (fun t ht => by have h0 : t = 0 := by omega
                    subst h0; decide)
    (fun t ht => by
      show ([0] : List Nat).Perm (List.range 1)
      decide)
    (by decide)

/-- C9: in every round, not only the first, a failing `SetReadDeadline`
makes `PeekStream` return immediately with that error wrapped as
"set read deadline", discarding the inconclusive reasons accumulated in
earlier rounds and leaving the protocol field unchanged. -/
theorem peekStream_set_deadline_error (conn : StreamConn) (sniffers : List Sniffer)
    (sched : Nat → List Nat) (now timeout : Nat) (proto0 : Option String)
    (buffer0 : ByteView) (j fuel : Nat) (e : String)
    (hfuel : j + 1 ≤ fuel)
    (hsd : ∀ t, t < j → conn.setDeadlineErr t = none)
    (hrd : ∀ t, t < j → ∃ c, conn.read t = .ok c)
    (hnm : ∀ t, t < j → roundInconclusive sniffers (viewFrom conn buffer0 0 t))
    (hsch : ∀ t, t < j → (sched t).Perm (List.range sniffers.length))
    (hsdj : conn.setDeadlineErr j = some e) :
    ∃ tr,
      PeekStream conn sniffers sched now timeout proto0 buffer0 fuel =
        some { result := some (.cause "set read deadline" (.str e)),
               protocol := proto0, trace := tr,
               reads := j, raceRounds := j, protocolWrites := 0 } := by
  obtain ⟨tr, heq⟩ :=
    peekStreamLoop_setdl conn sniffers sched
      (now + (if timeout = 0 then ReadPayloadTimeout else timeout)) proto0 e
      j 0 buffer0 [] [] 0 0 fuel hfuel
      (fun t ht => by rw [Nat.zero_add]; exact hsd t ht)
      (fun t ht => by rw [Nat.zero_add]; exact hrd t ht)
      hnm
      (fun t ht => by rw [Nat.zero_add]; exact hsch t ht)
      (by rw [Nat.zero_add]; exact hsdj)
  simp only [Nat.zero_add] at heq
  exact ⟨tr, heq⟩

/-- C9, witness: the round-1 `SetReadDeadline` fails on a second-round
connection; the round-0 reason is discarded. -/
theorem peekStream_set_deadline_error_witness :
    ∃ tr,
      PeekStream connSetdlFail [inconNope] (fun _ => [0]) 0 5 none [] 2 =
        some { result := some (.cause "set read deadline" (.str "closed")),
               protocol := none, trace := tr,
               reads := 1, raceRounds := 1, protocolWrites := 0 } :=
  peekStream_set_deadline_error connSetdlFail [inconNope] (fun _ => [0]) 0 5 none [] 1 2
    "closed" (by decide)
    (fun t ht => by have h0 : t = 0 := by omega
                    subst h0; rfl)
    (fun t ht => ⟨[0], rfl⟩)
    (fun t ht => by have h0 : t = 0 := by omega
                    subst h0; decide)
    (fun t ht => by
      show ([0] : List Nat).Perm (List.range 1)
      decide)
    rfl

/-- C10: with zero sniffers `PeekStream` does not return immediately: it
keeps reading round after round until a read fails at some round k ≥ 1,
then returns the empty error aggregate — which is nil — with the
protocol field unchanged, after k + 1 read attempts. -/
theorem peekStream_no_sniffers (conn : StreamConn) (sched : Nat → List Nat)
    (now timeout : Nat) (proto0 : Option String) (buffer0 : ByteView)
    (k fuel : Nat) (e : String)
    (hk : 1 ≤ k) (hfuel : k + 1 ≤ fuel)
    (hsd : ∀ t, t ≤ k → conn.setDeadlineErr t = none)
    (hrd : ∀ t, t < k → ∃ c, conn.read t = .ok c)
    (hre : conn.read k = .err e)
    (hsch : ∀ t, t < k → sched t = []) :
    ∃ tr,
      PeekStream conn [] sched now timeout proto0 buffer0 fuel =
        some { result := none, protocol := proto0, trace := tr,
               reads := k + 1, raceRounds := k, protocolWrites := 0 } := by
  obtain ⟨errsF, tr, heq, hperm⟩ :=
    peekStreamLoop_exhaust conn [] sched
      (now + (if timeout = 0 then ReadPayloadTimeout else timeout)) proto0 e
      k 0 buffer0 [] [] 0 0 fuel hfuel (by omega)
      (fun t ht => by rw [Nat.zero_add]; exact hsd t (Nat.le_of_lt ht))
      (by rw [Nat.zero_add]; exact hsd k (Nat.le_refl k))
      (fun t ht => by rw [Nat.zero_add]; exact hrd t ht)
      (by rw [Nat.zero_add]; exact hre)
      (fun t ht s hs => absurd hs (List.not_mem_nil s))
      (fun t ht => by rw [Nat.zero_add, hsch t ht]; simp)
  simp only [Nat.zero_add] at heq
  rw [List.nil_append, reasonsFrom_nil_sniffers] at hperm
  rw [hperm.eq_nil] at heq
  exact ⟨tr, heq⟩

/-- C10, witness: no sniffers, one successful read, then a timed-out
read; the call returns nil having read twice. -/
theorem peekStream_no_sniffers_witness :
    ∃ tr,
      PeekStream connOneRound [] (fun _ => []) 0 5 none [] 2 =
        some { result := none, protocol := none, trace := tr,
               reads := 2, raceRounds := 1, protocolWrites := 0 } :=
  peekStream_no_sniffers connOneRound (fun _ => []) 0 5 none [] 1 2 "timeout"
    (by decide) (by decide)
    (fun t ht => rfl)
    (fun t ht => ⟨[0], by have h0 : t = 0 := by omega
                          subst h0; rfl⟩)
    rfl
    (fun t ht => rfl)

end Sniff
